import Mathlib

/-!
Verification of the admission pipeline of `transs.py` (transmission_rss_feeder).

Python strings are modelled as `List Char`.  The regular-expression engine of
the Python `re` module is modelled by a small regex AST with Brzozowski
derivative semantics; `re.match` (anchored at the start of the string) is
`re_match`, which succeeds exactly when some initial segment of the input is
matched in full.  `re.compile` is modelled on the fragment of the pattern
language the filter files use (literal characters, the dot wildcard and the
star repetition); a pattern outside the fragment, like a dangling `*`, is a
compilation error, mirroring the exception `re.compile` raises.

File contents are `List Char`; `load_text` mirrors the Python line iteration
followed by `rstrip` of the newline.  The external collaborators (transmission
connection, feed download, submission outcome) enter through an environment
record `Env`; the per-run mutable state (the four counters, the content of
`added.txt` and the log of submission side effects) is `LoopState`.
-/

namespace Transs

/-- Regular expression AST covering the fragment of the Python `re` syntax
used by the filter files. `fail` matches nothing, `eps` the empty string. -/
inductive Regex where
  | fail
  | eps
  | char (c : Char)
  | dot
  | alt (a b : Regex)
  | concat (a b : Regex)
  | star (a : Regex)
deriving DecidableEq

/-- Does the regex accept the empty string? -/
def nullable : Regex → Bool
  | .fail => false
  | .eps => true
  | .char _ => false
  | .dot => false
  | .alt a b => nullable a || nullable b
  | .concat a b => nullable a && nullable b
  | .star _ => true

/-- Brzozowski derivative of a regex by one character.  The dot wildcard does
not match a newline, as in Python `re` without the DOTALL flag. -/
def deriv : Regex → Char → Regex
  | .fail, _ => .fail
  | .eps, _ => .fail
  | .char c, x => if x = c then .eps else .fail
  | .dot, x => if x = '\n' then .fail else .eps
  | .alt a b, x => .alt (deriv a x) (deriv b x)
  | .concat a b, x =>
      if nullable a then .alt (.concat (deriv a x) b) (deriv b x)
      else .concat (deriv a x) b
  | .star a, x => .concat (deriv a x) (.star a)

/-- The regex matches the whole string. -/
def matchFull (r : Regex) (s : List Char) : Bool :=
  nullable (s.foldl deriv r)

/-- Model of `regex.match(s)` truthiness: the regex matches some initial
segment of `s` (anchored at the start, not a substring search). -/
def re_match (r : Regex) : List Char → Bool
  | [] => nullable r
  | c :: cs => nullable r || re_match (deriv r c) cs

/-- Characters that are metacharacters of the Python `re` syntax outside the
fragment modelled here. -/
def isMeta (c : Char) : Bool :=
  c = '(' || c = ')' || c = '[' || c = ']' || c = '+' || c = '?' ||
  c = '|' || c = '\\' || c = '^' || c = '$'

/-- Parse a pattern into a sequence of atoms (with star repetition resolved).
A `*` with nothing to repeat, a doubled `*` or a metacharacter outside the
modelled fragment is a compilation error, as in Python `re.compile`. -/
def parseAtoms : List Char → Except String (List Regex)
  | [] => .ok []
  | c :: rest =>
    if c = '*' then .error "nothing to repeat"
    else if isMeta c then .error "unsupported metacharacter"
    else
      let a := if c = '.' then Regex.dot else Regex.char c
      match rest with
      | '*' :: '*' :: _ => .error "multiple repeat"
      | '*' :: rest2 => (parseAtoms rest2).map (fun as => Regex.star a :: as)
      | [] => .ok [a]
      | d :: rest3 => (parseAtoms (d :: rest3)).map (fun as => a :: as)

/-- Model of `re.compile` on the modelled fragment. The empty pattern compiles
to `Regex.eps`, which matches every string (at its empty initial segment). -/
def re_compile (p : List Char) : Except String Regex :=
  (parseAtoms p).map (fun atoms => atoms.foldr Regex.concat Regex.eps)

/-- Model of the filter-compilation loop of `main`: each loaded line is
compiled in order; the exception from a malformed pattern propagates. -/
def compileFilters : List (List Char) → Except String (List Regex)
  | [] => .ok []
  | f :: rest =>
    match re_compile f with
    | .error e => .error e
    | .ok r =>
      match compileFilters rest with
      | .error e => .error e
      | .ok rs => .ok (r :: rs)

/-- Split file content into lines as Python `for line in f` followed by
rstrip of the newline does: the terminating newline of each line is dropped,
an unterminated final line is kept, an empty file yields no lines. -/
def splitLines : List Char → List (List Char)
  | [] => []
  | c :: rest =>
    if c = '\n' then [] :: splitLines rest
    else
      match splitLines rest with
      | [] => [[c]]
      | l :: ls => (c :: l) :: ls

/-- Model of `load_text`: an absent file is the empty content, hence no
lines. -/
def load_text (content : List Char) : List (List Char) :=
  splitLines content

/-- Encode a list of lines as file content, each line newline-terminated
(the form `add_torrent` appends: `item.link + chr 10`). -/
def encodeLines : List (List Char) → List Char
  | [] => []
  | l :: ls => l ++ '\n' :: encodeLines ls

/-- One feed entry: `title` is matched against the filters, `link` is the
identifier used for dedup and submission, `published` is the publication
time in seconds (model of the parsed `published_parsed` time tuple). -/
structure Item where
  title : List Char
  link : List Char
  published : Int
deriving DecidableEq

/-- Model of `sec_diff`: seconds between the current time and a point in
time. -/
def sec_diff (now : Int) (time_val : Int) : Int :=
  now - time_val

/-- The external collaborators and configuration of one run. -/
structure Env where
  /-- Result of constructing the transmissionrpc client. -/
  connect : Except String Unit
  /-- Content of `added.txt` at run start (empty when absent). -/
  addedText : List Char
  /-- Content of `filter.txt` (empty when absent). -/
  filterText : List Char
  /-- Result of downloading and parsing the feed; an error models bozo. -/
  feed : Except String (List Item)
  /-- Current UTC time in seconds. -/
  now : Int
  /-- Maximum age `args.age` in seconds. -/
  age : Int
  /-- The `args.paused` flag. -/
  paused : Bool
  /-- Whether `tc.add_torrent` succeeds for a given link. -/
  submitOk : List Char → Bool

/-- Mutable state of the per-entry loop: the four counters of `main`, the
content of `added.txt` and the chronological log of submission side
effects. -/
structure LoopState where
  aged : Nat
  old : Nat
  new : Nat
  filtered : Nat
  fileText : List Char
  submitted : List (List Char)
deriving DecidableEq

/-- Model of `add_torrent`: submit the link to transmission and append it,
newline-terminated, to `added.txt`.  When the submission raises, the state is
unchanged (the append is never reached) and the second component is `false`,
standing for the propagating exception. -/
def add_torrent (env : Env) (item : Item) (s : LoopState) : LoopState × Bool :=
  if env.submitOk item.link then
    ({ s with submitted := s.submitted ++ [item.link],
              fileText := s.fileText ++ item.link ++ ['\n'] }, true)
  else (s, false)

/-- Outcome of the inner filter loop of `main`. -/
inductive MatchRes where
  | matched
  | nomatch
  | failed
deriving DecidableEq

/-- The inner filter loop of `main`: try each compiled filter in order
against the title; on the first match, call `add_torrent`, bump `new` and
break with `okay = true` (`matched`); if `add_torrent` raises the loop is
abandoned (`failed`); if no filter matches, `okay` stays false
(`nomatch`). -/
def filterLoop (env : Env) (item : Item) : List Regex → LoopState → LoopState × MatchRes
  | [], s => (s, .nomatch)
  | regex :: rest, s =>
    if re_match regex item.title then
      match add_torrent env item s with
      | (s1, true) => ({ s1 with new := s1.new + 1 }, .matched)
      | (s1, false) => (s1, .failed)
    else filterLoop env item rest s

/-- One iteration of the per-entry loop of `main`, translated branch by
branch: the age check, the dedup check against the once-loaded
`added_items`, the filter loop guarded by `len(compiled_filters)`, then the
`if not okay / else` tail in which a matched entry calls `add_torrent` and
bumps `new` a second time.  The second component is `false` when an
exception propagates out of the iteration. -/
def processItem (env : Env) (added_items : List (List Char)) (cf : List Regex)
    (s : LoopState) (item : Item) : LoopState × Bool :=
  let torrent_age := sec_diff env.now item.published
  if torrent_age > env.age then
    ({ s with aged := s.aged + 1 }, true)
  else if item.link ∈ added_items then
    ({ s with old := s.old + 1 }, true)
  else
    let res := if cf.length != 0 then filterLoop env item cf s else (s, .nomatch)
    match res with
    | (s1, .failed) => (s1, false)
    | (s1, .nomatch) => ({ s1 with filtered := s1.filtered + 1 }, true)
    | (s1, .matched) =>
      match add_torrent env item s1 with
      | (s2, true) => ({ s2 with new := s2.new + 1 }, true)
      | (s2, false) => (s2, false)

/-- The per-entry loop over the feed: entries are processed in order; an
exception from `processItem` aborts the run with the state reached so far
(second component `false`). -/
def runLoop (env : Env) (added_items : List (List Char)) (cf : List Regex) :
    LoopState → List Item → LoopState × Bool
  | s, [] => (s, true)
  | s, item :: rest =>
    match processItem env added_items cf s item with
    | (s1, true) => runLoop env added_items cf s1 rest
    | (s1, false) => (s1, false)

/-- How one invocation of `main` ends. -/
inductive RunOutcome where
  /-- The transmissionrpc client raised: `exit(0)`. -/
  | connectFailExit
  /-- `re.compile` raised on a filter line; uncaught, the interpreter dies
  with a traceback and a non-zero status. -/
  | compileError (msg : String)
  /-- The feed is bozo: `main` logs and returns, status zero. -/
  | feedErrorReturn
  /-- An exception propagated out of the per-entry loop (uncaught, non-zero
  status); the state reached when it was raised is recorded. -/
  | aborted (s : LoopState)
  /-- Normal completion with the final state, status zero. -/
  | finished (s : LoopState)
deriving DecidableEq

/-- Process completion status of each outcome: zero for `exit(0)`, the bozo
early return and normal completion; non-zero (a traceback) for an uncaught
exception. -/
def exitCode : RunOutcome → Nat
  | .connectFailExit => 0
  | .compileError _ => 1
  | .feedErrorReturn => 0
  | .aborted _ => 1
  | .finished _ => 0

/-- Model of `main` after argument parsing: connect to transmission
(`exit(0)` on failure), load `added.txt` and `filter.txt`, compile the
filters (uncaught exception on a malformed one), download the feed (log and
return when bozo), then run the per-entry loop. -/
def runMain (env : Env) : RunOutcome :=
  match env.connect with
  | .error _ => .connectFailExit
  | .ok _ =>
    let added_items := load_text env.addedText
    let filters := load_text env.filterText
    match compileFilters filters with
    | .error e => .compileError e
    | .ok compiled_filters =>
      match env.feed with
      | .error _ => .feedErrorReturn
      | .ok entries =>
        let init : LoopState :=
          { aged := 0, old := 0, new := 0, filtered := 0,
            fileText := env.addedText, submitted := [] }
        match runLoop env added_items compiled_filters init entries with
        | (s, true) => .finished s
        | (s, false) => .aborted s

/-- The four classifications of the specification. -/
inductive Classification where
  | Aged
  | AlreadyProcessed
  | Filtered
  | Accepted
deriving DecidableEq

/-- The classification the loop body assigns to one entry: the decision
depends only on the entry, the once-loaded `added_items` and the compiled
filters (`Accepted` meaning some filter matches the title). -/
def classify (env : Env) (added_items : List (List Char)) (cf : List Regex)
    (item : Item) : Classification :=
  if sec_diff env.now item.published > env.age then .Aged
  else if item.link ∈ added_items then .AlreadyProcessed
  else if cf.any (fun r => re_match r item.title) then .Accepted
  else .Filtered

/-- Effect of one loop iteration on the state, per classification, when every
submission succeeds.  An `Accepted` entry is submitted twice and appended to
`added.txt` twice (once inside the filter loop, once in the trailing `else`
branch), and `new` is bumped twice. -/
def applyClass (item : Item) (c : Classification) (s : LoopState) : LoopState :=
  match c with
  | .Aged => { s with aged := s.aged + 1 }
  | .AlreadyProcessed => { s with old := s.old + 1 }
  | .Filtered => { s with filtered := s.filtered + 1 }
  | .Accepted =>
      { s with new := s.new + 2,
               submitted := s.submitted ++ [item.link, item.link],
               fileText := s.fileText ++ encodeLines [item.link, item.link] }

/-- Denotation of the loop when every submission succeeds. -/
def classRun (env : Env) (added_items : List (List Char)) (cf : List Regex)
    (entries : List Item) (s : LoopState) : LoopState :=
  entries.foldl (fun s e => applyClass e (classify env added_items cf e) s) s

/-- The links appended to `added.txt` (and submitted) during a fully
successful run: two copies per accepted entry, in feed order. -/
def acceptedLinks (env : Env) (added_items : List (List Char)) (cf : List Regex) :
    List Item → List (List Char)
  | [] => []
  | e :: es =>
    (if classify env added_items cf e = .Accepted then [e.link, e.link] else []) ++
      acceptedLinks env added_items cf es

/-! ### Basic lemmas about the regex engine and line handling -/

theorem matchFull_nil (r : Regex) : matchFull r [] = nullable r := rfl

theorem matchFull_cons (r : Regex) (c : Char) (cs : List Char) :
    matchFull r (c :: cs) = matchFull (deriv r c) cs := rfl

/-- `re.match` semantics: the anchored match succeeds exactly when the regex
fully matches some initial segment of the string. -/
theorem re_match_iff (r : Regex) (s : List Char) :
    re_match r s = true ↔ ∃ n, matchFull r (s.take n) = true := by
  induction s generalizing r with
  | nil => simp [re_match, matchFull]
  | cons c cs ih =>
    simp only [re_match, Bool.or_eq_true]
    constructor
    · rintro (h | h)
      · exact ⟨0, by simpa [matchFull] using h⟩
      · obtain ⟨n, hn⟩ := (ih (deriv r c)).mp h
        exact ⟨n + 1, by simpa [matchFull_cons] using hn⟩
    · rintro ⟨n, hn⟩
      match n with
      | 0 => exact Or.inl (by simpa [matchFull] using hn)
      | m + 1 =>
        exact Or.inr ((ih (deriv r c)).mpr ⟨m, by simpa [matchFull_cons] using hn⟩)

/-- The empty pattern, the compilation of an empty filter line, matches every
string. -/
theorem re_match_eps (s : List Char) : re_match Regex.eps s = true := by
  cases s <;> simp [re_match, nullable]

theorem splitLines_append (l t : List Char) (hl : '\n' ∉ l) :
    splitLines (l ++ '\n' :: t) = l :: splitLines t := by
  induction l with
  | nil => simp [splitLines]
  | cons c cs ih =>
    have hc : ¬ c = '\n' := fun h => hl (h ▸ List.mem_cons_self c cs)
    have hcs : '\n' ∉ cs := fun h => hl (List.mem_cons_of_mem c h)
    show splitLines (c :: (cs ++ '\n' :: t)) = (c :: cs) :: splitLines t
    rw [splitLines, if_neg hc, ih hcs]

theorem encodeLines_append (a b : List (List Char)) :
    encodeLines (a ++ b) = encodeLines a ++ encodeLines b := by
  induction a with
  | nil => rfl
  | cons l ls ih => simp [encodeLines, ih]

/-- Round trip through the ledger file: writing newline-terminated lines and
reading them back with the line iteration of `load_text` is the identity. -/
theorem splitLines_encodeLines (ls : List (List Char)) (h : ∀ l ∈ ls, '\n' ∉ l) :
    splitLines (encodeLines ls) = ls := by
  induction ls with
  | nil => rfl
  | cons l ls ih =>
    rw [encodeLines, splitLines_append l _ (h l (List.mem_cons_self l ls)),
        ih (fun x hx => h x (List.mem_cons_of_mem l hx))]

/-! ### The loop body versus the classification function -/

/-- When the submission succeeds, the inner filter loop either finds a match
(and then has submitted and appended once and bumped `new` once) or leaves
the state unchanged. -/
theorem filterLoop_ok (env : Env) (item : Item) (cf : List Regex) (s : LoopState)
    (hok : env.submitOk item.link = true) :
    filterLoop env item cf s =
      if cf.any (fun r => re_match r item.title) then
        ({ s with new := s.new + 1,
                  submitted := s.submitted ++ [item.link],
                  fileText := s.fileText ++ item.link ++ ['\n'] }, .matched)
      else (s, .nomatch) := by
  induction cf with
  | nil => simp [filterLoop]
  | cons r rest ih =>
    by_cases h : re_match r item.title = true
    · simp [filterLoop, h, add_torrent, hok]
    · simp only [Bool.not_eq_true] at h
      simp [filterLoop, h, ih]

/-- When the submission raises and some filter matches, the inner loop is
abandoned with the state unchanged. -/
theorem filterLoop_fail (env : Env) (item : Item) (cf : List Regex) (s : LoopState)
    (hfail : env.submitOk item.link = false)
    (hmatch : cf.any (fun r => re_match r item.title) = true) :
    filterLoop env item cf s = (s, .failed) := by
  induction cf with
  | nil => simp at hmatch
  | cons r rest ih =>
    by_cases h : re_match r item.title = true
    · simp [filterLoop, h, add_torrent, hfail]
    · simp only [Bool.not_eq_true] at h
      have hrest : rest.any (fun r => re_match r item.title) = true := by
        simpa [h] using hmatch
      simp [filterLoop, h, ih hrest]

/-- One loop iteration, when the submission succeeds, performs exactly the
state change `applyClass` prescribes for the entry's classification. -/
theorem processItem_ok (env : Env) (added : List (List Char)) (cf : List Regex)
    (s : LoopState) (item : Item)
    (hok : env.submitOk item.link = true) :
    processItem env added cf s item =
      (applyClass item (classify env added cf item) s, true) := by
  by_cases ha : sec_diff env.now item.published > env.age
  · simp [processItem, classify, ha, applyClass]
  · by_cases hd : item.link ∈ added
    · simp [processItem, classify, ha, hd, applyClass]
    · cases cf with
      | nil => simp [processItem, classify, ha, hd, applyClass, filterLoop]
      | cons r rest =>
        have step : processItem env added (r :: rest) s item =
            match filterLoop env item (r :: rest) s with
            | (s1, .failed) => (s1, false)
            | (s1, .nomatch) => ({ s1 with filtered := s1.filtered + 1 }, true)
            | (s1, .matched) =>
              match add_torrent env item s1 with
              | (s2, true) => ({ s2 with new := s2.new + 1 }, true)
              | (s2, false) => (s2, false) := by
          rw [processItem, if_neg ha, if_neg hd]
          rfl
        rw [step, filterLoop_ok env item (r :: rest) s hok]
        by_cases hm : (r :: rest).any (fun x => re_match x item.title) = true
        · simp only [hm, if_true]
          simp [classify, ha, hd, hm, applyClass, add_torrent, hok, encodeLines,
            List.append_assoc]
        · simp only [Bool.not_eq_true] at hm
          simp [classify, ha, hd, hm, applyClass]

/-- When every submission succeeds the loop completes normally and its effect
is the fold of `applyClass` over the entries' classifications. -/
theorem runLoop_ok (env : Env) (added : List (List Char)) (cf : List Regex)
    (entries : List Item) (s : LoopState)
    (hok : ∀ l, env.submitOk l = true) :
    runLoop env added cf s entries = (classRun env added cf entries s, true) := by
  induction entries generalizing s with
  | nil => rfl
  | cons e es ih =>
    rw [runLoop, processItem_ok env added cf s e (hok e.link)]
    exact ih (applyClass e (classify env added cf e) s)

theorem classRun_fileText (env : Env) (added : List (List Char)) (cf : List Regex)
    (entries : List Item) (s : LoopState) :
    (classRun env added cf entries s).fileText =
      s.fileText ++ encodeLines (acceptedLinks env added cf entries) := by
  induction entries generalizing s with
  | nil => simp [classRun, acceptedLinks, encodeLines]
  | cons e es ih =>
    show (classRun env added cf es (applyClass e (classify env added cf e) s)).fileText = _
    rw [ih]
    cases hc : classify env added cf e <;>
      simp [applyClass, acceptedLinks, hc, List.append_assoc, ← encodeLines_append]

theorem classRun_submitted (env : Env) (added : List (List Char)) (cf : List Regex)
    (entries : List Item) (s : LoopState) :
    (classRun env added cf entries s).submitted =
      s.submitted ++ acceptedLinks env added cf entries := by
  induction entries generalizing s with
  | nil => simp [classRun, acceptedLinks]
  | cons e es ih =>
    show (classRun env added cf es (applyClass e (classify env added cf e) s)).submitted = _
    rw [ih]
    cases hc : classify env added cf e <;>
      simp [applyClass, acceptedLinks, hc, List.append_assoc]

theorem acceptedLinks_mem (env : Env) (added : List (List Char)) (cf : List Regex)
    (entries : List Item) (e : Item)
    (he : e ∈ entries) (hc : classify env added cf e = .Accepted) :
    e.link ∈ acceptedLinks env added cf entries := by
  induction entries with
  | nil => simp at he
  | cons f es ih =>
    rcases List.mem_cons.mp he with rfl | h
    · simp [acceptedLinks, hc]
    · exact List.mem_append_right _ (ih h)

theorem acceptedLinks_nlfree (env : Env) (added : List (List Char)) (cf : List Regex)
    (entries : List Item)
    (h : ∀ e ∈ entries, '\n' ∉ e.link) :
    ∀ l ∈ acceptedLinks env added cf entries, '\n' ∉ l := by
  induction entries with
  | nil => simp [acceptedLinks]
  | cons e es ih =>
    intro l hl
    simp only [acceptedLinks, List.mem_append] at hl
    rcases hl with hl | hl
    · have hll : l = e.link := by
        by_cases hc : classify env added cf e = .Accepted
        · rw [if_pos hc] at hl
          simp only [List.mem_cons, List.not_mem_nil, or_false] at hl
          rcases hl with h1 | h1 <;> exact h1
        · rw [if_neg hc] at hl
          simp at hl
      exact hll ▸ h e (List.mem_cons_self e es)
    · exact ih (fun x hx => h x (List.mem_cons_of_mem e hx)) l hl

theorem classify_accepted_fresh (env : Env) (added : List (List Char))
    (cf : List Regex) (item : Item)
    (h : classify env added cf item = .Accepted) :
    ¬ sec_diff env.now item.published > env.age := by
  intro ha
  simp [classify, ha] at h

/-! ### Concrete fixtures used by witnesses and counterexamples -/

/-- A fresh entry whose title starts with the letter the sample filter
matches. -/
def itemA : Item := { title := ['a', 'b', 'c'], link := ['L', '1'], published := 0 }

/-- A second fresh matching entry with a different link. -/
def itemB : Item := { title := ['a', 'b', 'c'], link := ['L', '2'], published := 0 }

/-- An entry published 4000 seconds before `now := 0`. -/
def itemOld : Item := { title := ['a', 'b', 'c'], link := ['L', '3'], published := -4000 }

/-- The compiled form of a one-line filter file holding the single letter
pattern a. -/
def cfA : List Regex := [Regex.concat (Regex.char 'a') Regex.eps]

/-- The initial loop state of a run whose `added.txt` is empty. -/
def state0 : LoopState :=
  { aged := 0, old := 0, new := 0, filtered := 0, fileText := [], submitted := [] }

/-- A run with an empty filter file and one fresh entry; every collaborator
behaves. -/
def envEmptyFilters : Env :=
  { connect := .ok ()
    addedText := []
    filterText := []
    feed := .ok [itemA]
    now := 0
    age := 1800
    paused := false
    submitOk := fun _ => true }

/-- The same run with the one-line filter file. -/
def envOneMatch : Env := { envEmptyFilters with filterText := ['a', '\n'] }

/-- Two fresh matching entries; the submission of the first one raises. -/
def envSubmitFail : Env :=
  { envEmptyFilters with
    filterText := ['a', '\n']
    feed := .ok [itemA, itemB]
    submitOk := fun l => decide (l ≠ ['L', '1']) }

/-- The transmission connection raises at run start. -/
def envConnectFail : Env := { envEmptyFilters with connect := .error "refused" }

/-- The filter file holds the single malformed pattern consisting of a bare
star. -/
def envBadPattern : Env := { envEmptyFilters with filterText := ['*', '\n'] }

/-! ### The claims -/

/-- C1: the claim states that with an empty Rule Set every entry passing the
age and duplicate checks is classified Accepted, submitted and counted as
accepted.  The code does the opposite: with no compiled filters the inner
loop body never runs, `okay` stays false and the entry falls into the
`filtered += 1` branch with no submission — although the comment in the
source, In case there is no filter adding all files, documents the
accept-everything intent the claim describes.  This theorem evaluates the
model at the failing input (empty filter file, one fresh non-duplicate
entry): the run finishes with the filtered counter at one, nothing
submitted and nothing appended to the ledger. -/
theorem c1_empty_ruleset_filters_out_bug :
    runMain envEmptyFilters = .finished ⟨0, 0, 0, 1, [], []⟩ := by
  rfl

/-- C2: the claim states that every Accepted entry gets exactly one
submission and one ledger append.  In the code a matched entry calls
`add_torrent` twice — once inside the filter loop before the break, and a
second time in the `else` branch attached to `if not okay` — so it is
submitted twice and its link is appended to `added.txt` twice (and `new` is
bumped twice).  This theorem evaluates the model at the failing input (one
fresh entry whose title matches the single filter): the submission log holds
the link twice and the ledger file holds two copies of the line. -/
theorem c2_double_submission_bug :
    runMain envOneMatch =
      .finished ⟨0, 0, 2, 0, ['L', '1', '\n', 'L', '1', '\n'],
        [['L', '1'], ['L', '1']]⟩ := by
  rfl

/-- C3: the claim states that the four summary counters always sum to the
number of entries processed.  Because the accepted counter `new` is
incremented twice per accepted entry (the C2 slip), the sum exceeds the
entry count whenever anything is accepted.  At the failing input — a
one-entry feed whose entry is accepted — the counters sum to two. -/
theorem c3_counter_sum_bug :
    runMain envOneMatch =
      .finished ⟨0, 0, 2, 0, ['L', '1', '\n', 'L', '1', '\n'],
        [['L', '1'], ['L', '1']]⟩ ∧
    envOneMatch.feed = .ok [itemA] ∧
    0 + 0 + 0 + 2 ≠ [itemA].length :=
  ⟨rfl, rfl, by decide⟩

/-- C4: for an entry reaching the pattern check (fresh, not in the ledger)
with a non-empty Rule Set and a succeeding submission: the entry is
classified Accepted exactly when some rule fully matches an initial segment
of the title (anchored match, not substring search), Filtered exactly
otherwise; the inner loop stops at the first matching rule (the later rules
are irrelevant once one matches); and the loop body realises the
classification. -/
theorem c4_pattern_check (env : Env) (added : List (List Char)) (cf : List Regex)
    (s : LoopState) (item : Item)
    (_hcf : cf ≠ [])
    (hok : env.submitOk item.link = true)
    (hage : ¬ sec_diff env.now item.published > env.age)
    (hdup : item.link ∉ added) :
    (classify env added cf item = .Accepted ↔
       ∃ r ∈ cf, ∃ n, matchFull r (item.title.take n) = true) ∧
    (classify env added cf item = .Filtered ↔
       ¬ ∃ r ∈ cf, ∃ n, matchFull r (item.title.take n) = true) ∧
    (∀ r rest s1, re_match r item.title = true →
       filterLoop env item (r :: rest) s1 = filterLoop env item [r] s1) ∧
    processItem env added cf s item =
      (applyClass item (classify env added cf item) s, true) := by
  have hcl : classify env added cf item =
      if cf.any (fun r => re_match r item.title) then .Accepted else .Filtered := by
    rw [classify, if_neg hage, if_neg hdup]
  have hiff : cf.any (fun r => re_match r item.title) = true ↔
      ∃ r ∈ cf, ∃ n, matchFull r (item.title.take n) = true := by
    rw [List.any_eq_true]
    constructor
    · rintro ⟨r, hr, hm⟩
      exact ⟨r, hr, (re_match_iff r item.title).mp hm⟩
    · rintro ⟨r, hr, hm⟩
      exact ⟨r, hr, (re_match_iff r item.title).mpr hm⟩
  refine ⟨?_, ?_, ?_, processItem_ok env added cf s item hok⟩
  · rw [hcl]
    by_cases hm : cf.any (fun r => re_match r item.title) = true
    · simp [hm, hiff.mp hm]
    · simp only [Bool.not_eq_true] at hm
      have hnex : ¬ ∃ r ∈ cf, ∃ n, matchFull r (item.title.take n) = true := by
        intro hx
        rw [hiff.mpr hx] at hm
        exact Bool.noConfusion hm
      simp [hm, hnex]
  · rw [hcl]
    by_cases hm : cf.any (fun r => re_match r item.title) = true
    · simp [hm, hiff.mp hm]
    · simp only [Bool.not_eq_true] at hm
      have hnex : ¬ ∃ r ∈ cf, ∃ n, matchFull r (item.title.take n) = true := by
        intro hx
        rw [hiff.mpr hx] at hm
        exact Bool.noConfusion hm
      simp [hm, hnex]
  · intro r rest s1 hr
    simp [filterLoop, hr]

/-- C4 witness at a concrete input: one filter for the letter a, a fresh
non-duplicate entry titled abc. -/
theorem c4_witness :
    cfA ≠ [] ∧
    ((classify envOneMatch [] cfA itemA = .Accepted ↔
        ∃ r ∈ cfA, ∃ n, matchFull r (itemA.title.take n) = true) ∧
     (classify envOneMatch [] cfA itemA = .Filtered ↔
        ¬ ∃ r ∈ cfA, ∃ n, matchFull r (itemA.title.take n) = true) ∧
     (∀ r rest s1, re_match r itemA.title = true →
        filterLoop envOneMatch itemA (r :: rest) s1 =
          filterLoop envOneMatch itemA [r] s1) ∧
     processItem envOneMatch [] cfA state0 itemA =
       (applyClass itemA (classify envOneMatch [] cfA itemA) state0, true)) :=
  ⟨by decide,
   c4_pattern_check envOneMatch [] cfA state0 itemA (by decide) rfl (by decide)
     (by decide)⟩

/-- C5: the classification is decided in the fixed precedence age check,
then duplicate check, then pattern check: an over-age entry is classified
Aged whatever the ledger and the rules hold, and a fresh entry whose link is
already in the once-loaded ledger is classified AlreadyProcessed whatever
the rules hold; in both cases the loop body only bumps the corresponding
counter.  The `classify` function being total, exactly one classification is
assigned to every entry. -/
theorem c5_precedence (env : Env) (added : List (List Char)) (cf : List Regex)
    (s : LoopState) (item : Item) :
    (sec_diff env.now item.published > env.age →
       processItem env added cf s item = ({ s with aged := s.aged + 1 }, true) ∧
       classify env added cf item = .Aged) ∧
    (¬ sec_diff env.now item.published > env.age → item.link ∈ added →
       processItem env added cf s item = ({ s with old := s.old + 1 }, true) ∧
       classify env added cf item = .AlreadyProcessed) := by
  constructor
  · intro ha
    exact ⟨by simp [processItem, ha], by simp [classify, ha]⟩
  · intro ha hd
    exact ⟨by simp [processItem, ha, hd], by simp [classify, ha, hd]⟩

/-- C5 witness: an entry 4000 seconds old against an 1800 second threshold
is Aged, with any rules and any ledger. -/
theorem c5_witness :
    sec_diff envEmptyFilters.now itemOld.published > envEmptyFilters.age ∧
    processItem envEmptyFilters [itemOld.link] cfA state0 itemOld =
      ({ state0 with aged := state0.aged + 1 }, true) ∧
    classify envEmptyFilters [itemOld.link] cfA itemOld = .Aged :=
  ⟨by decide,
   (c5_precedence envEmptyFilters [itemOld.link] cfA state0 itemOld).1 (by decide)⟩

/-- C6 counterexample: the claim states a failed submission does not abort
the run and the remaining entries are still evaluated.  At this concrete
input the feed has two fresh matching entries and the submission of the
first raises: the run ends in the aborted outcome with the state still at
its initial value — no counter was incremented, nothing was appended for
either entry, and in particular the second entry was never evaluated.  (The
other half of the claim is true: the failed link is indeed absent from the
ledger file.) -/
theorem c6_cex_submission_failure_aborts :
    runMain envSubmitFail = .aborted state0 ∧
    envSubmitFail.feed = .ok [itemA, itemB] ∧
    exitCode (runMain envSubmitFail) = 1 :=
  ⟨rfl, rfl, rfl⟩

/-- C6 as amended: when the submission of a fresh, non-duplicate,
rule-matching entry raises, the exception propagates uncaught and aborts the
whole run at that entry: the state is returned unchanged (so the failed link
is not appended to the ledger and can be retried on a later run) and the
remaining entries are not evaluated. -/
theorem c6_submission_failure_aborts_run (env : Env) (added : List (List Char))
    (cf : List Regex) (s : LoopState) (e : Item) (rest : List Item)
    (hage : ¬ sec_diff env.now e.published > env.age)
    (hdup : e.link ∉ added)
    (hmatch : cf.any (fun r => re_match r e.title) = true)
    (hfail : env.submitOk e.link = false) :
    runLoop env added cf s (e :: rest) = (s, false) := by
  cases cf with
  | nil => simp at hmatch
  | cons r rs =>
    have step : processItem env added (r :: rs) s e = (s, false) := by
      rw [processItem, if_neg hage, if_neg hdup]
      have hfl : filterLoop env e (r :: rs) s = (s, .failed) :=
        filterLoop_fail env e (r :: rs) s hfail hmatch
      simp [hfl]
    rw [runLoop, step]

/-- C6 witness at a concrete input: the submission of the first entry
raises; the run aborts with the initial state, the second entry untouched. -/
theorem c6_witness :
    envSubmitFail.submitOk itemA.link = false ∧
    runLoop envSubmitFail [] cfA state0 [itemA, itemB] = (state0, false) :=
  ⟨rfl,
   c6_submission_failure_aborts_run envSubmitFail [] cfA state0 itemA [itemB]
     (by decide) (by decide) (by decide) rfl⟩

/-- C7 counterexample: the claim states every fatal error surfaces with a
non-zero completion status.  When the transmission connection fails at run
start the source calls exit with status zero, so the completion status is
zero, not non-zero (the abort-before-processing half of the claim does
hold). -/
theorem c7_cex_connect_failure_exits_zero :
    runMain envConnectFail = .connectFailExit ∧
    exitCode (runMain envConnectFail) = 0 :=
  ⟨rfl, rfl⟩

/-- C7 as amended: each fatal error aborts the run before any entry is
processed, but only the malformed pattern surfaces with a non-zero status
(an uncaught exception from the compilation loop); a connection failure at
run start exits with status zero, and an unreadable or unparsable feed makes
`main` log and return, also status zero. -/
theorem c7_fatal_error_paths (env : Env) :
    (∀ msg, env.connect = .error msg →
       runMain env = .connectFailExit ∧ exitCode (runMain env) = 0) ∧
    (env.connect = .ok () →
       ∀ msg, compileFilters (load_text env.filterText) = .error msg →
         runMain env = .compileError msg ∧ exitCode (runMain env) = 1) ∧
    (env.connect = .ok () →
       ∀ rules, compileFilters (load_text env.filterText) = .ok rules →
         ∀ msg, env.feed = .error msg →
           runMain env = .feedErrorReturn ∧ exitCode (runMain env) = 0) := by
  refine ⟨?_, ?_, ?_⟩
  · intro msg h
    have hr : runMain env = .connectFailExit := by
      simp [runMain, h]
    exact ⟨hr, by rw [hr]; rfl⟩
  · intro hc msg h
    have hr : runMain env = .compileError msg := by
      simp [runMain, hc, h]
    exact ⟨hr, by rw [hr]; rfl⟩
  · intro hc rules h msg hf
    have hr : runMain env = .feedErrorReturn := by
      simp [runMain, hc, h, hf]
    exact ⟨hr, by rw [hr]; rfl⟩

/-- C7 witness: a filter file holding a bare star is a malformed pattern;
the run aborts before the feed is even consulted, with a non-zero status. -/
theorem c7_witness :
    envBadPattern.connect = .ok () ∧
    compileFilters (load_text envBadPattern.filterText) = .error "nothing to repeat" ∧
    (runMain envBadPattern = .compileError "nothing to repeat" ∧
     exitCode (runMain envBadPattern) = 1) :=
  ⟨rfl, rfl,
   (c7_fatal_error_paths envBadPattern).2.1 rfl "nothing to repeat" rfl⟩

/-- C8: cross-run idempotence through the ledger round trip.  Run 1 starts
from a well-formed ledger file holding the lines of the once-loaded list,
and every submission succeeds.  Then run 1 completes, and reloading the
ledger file it leaves behind (append, then load) classifies every entry
accepted in run 1 as AlreadyProcessed — in particular none of them is
Accepted on the second run over the same feed snapshot. -/
theorem c8_idempotence (env : Env) (L0 : List (List Char)) (cf : List Regex)
    (entries : List Item) (s0 : LoopState)
    (hok : ∀ l, env.submitOk l = true)
    (hfile : s0.fileText = encodeLines L0)
    (hL0 : ∀ l ∈ L0, '\n' ∉ l)
    (hlinks : ∀ e ∈ entries, '\n' ∉ e.link) :
    (runLoop env L0 cf s0 entries).2 = true ∧
    ∀ e ∈ entries, classify env L0 cf e = .Accepted →
      classify env (load_text (runLoop env L0 cf s0 entries).1.fileText) cf e =
        .AlreadyProcessed := by
  rw [runLoop_ok env L0 cf entries s0 hok]
  refine ⟨rfl, ?_⟩
  intro e he hacc
  have hft : (classRun env L0 cf entries s0).fileText =
      encodeLines (L0 ++ acceptedLinks env L0 cf entries) := by
    rw [classRun_fileText, hfile, ← encodeLines_append]
  rw [hft, load_text, splitLines_encodeLines]
  · have hmem : e.link ∈ L0 ++ acceptedLinks env L0 cf entries :=
      List.mem_append_right _ (acceptedLinks_mem env L0 cf entries e he hacc)
    have hna := classify_accepted_fresh env L0 cf e hacc
    simp [classify, hna, hmem]
  · intro l hl
    rcases List.mem_append.mp hl with h | h
    · exact hL0 l h
    · exact acceptedLinks_nlfree env L0 cf entries hlinks l h

/-- C8 witness: a one-entry feed accepted from an empty ledger; reloading the
ledger left behind classifies the entry AlreadyProcessed. -/
theorem c8_witness :
    (∀ l, envOneMatch.submitOk l = true) ∧
    (runLoop envOneMatch [] cfA state0 [itemA]).2 = true ∧
    (∀ e ∈ [itemA], classify envOneMatch [] cfA e = .Accepted →
       classify envOneMatch
           (load_text (runLoop envOneMatch [] cfA state0 [itemA]).1.fileText) cfA e =
         .AlreadyProcessed) :=
  ⟨fun _ => rfl,
   (c8_idempotence envOneMatch [] cfA [itemA] state0 (fun _ => rfl) rfl (by decide)
      (by decide)).1,
   (c8_idempotence envOneMatch [] cfA [itemA] state0 (fun _ => rfl) rfl (by decide)
      (by decide)).2⟩

/-- C9 counterexample: the claim states Rule Set loading compiles exactly the
non-empty input lines, an empty line contributing no rule.  The compilation
loop of the source compiles every loaded line, empty ones included: from the
two input lines a and the empty line it builds two matchers, not one, and
the matcher compiled from the empty line matches every title. -/
theorem c9_cex_empty_line_compiled :
    compileFilters [['a'], []] =
      .ok [Regex.concat (Regex.char 'a') Regex.eps, Regex.eps] ∧
    List.filter (fun l => !l.isEmpty) [['a'], []] = [['a']] ∧
    re_match Regex.eps ['z'] = true :=
  ⟨rfl, rfl, rfl⟩

/-- C9 as amended: Rule Set loading compiles every input line, in order,
empty lines included; an empty line compiles to the empty pattern, which
matches every title (so it does contribute a rule — an accept-everything
rule). -/
theorem c9_every_line_compiled (lines : List (List Char)) (rules : List Regex)
    (h : compileFilters lines = .ok rules) :
    List.Forall₂ (fun l r => re_compile l = Except.ok r) lines rules ∧
    re_compile [] = Except.ok Regex.eps ∧
    ∀ s, re_match Regex.eps s = true := by
  refine ⟨?_, rfl, re_match_eps⟩
  induction lines generalizing rules with
  | nil =>
    rw [compileFilters] at h
    cases h
    exact List.Forall₂.nil
  | cons l ls ih =>
    rw [compileFilters] at h
    cases hc : re_compile l with
    | error e =>
      rw [hc] at h
      exact Except.noConfusion h
    | ok r =>
      rw [hc] at h
      cases hcs : compileFilters ls with
      | error e =>
        rw [hcs] at h
        exact Except.noConfusion h
      | ok rs =>
        rw [hcs] at h
        cases h
        exact List.Forall₂.cons hc (ih rs hcs)

/-- C9 witness at the two-line input: the line a and an empty line compile,
in order, to the letter matcher and the accept-everything empty matcher. -/
theorem c9_witness :
    compileFilters [['a'], []] =
      .ok [Regex.concat (Regex.char 'a') Regex.eps, Regex.eps] ∧
    (List.Forall₂ (fun l r => re_compile l = Except.ok r) [['a'], []]
        [Regex.concat (Regex.char 'a') Regex.eps, Regex.eps] ∧
     re_compile [] = Except.ok Regex.eps ∧
     ∀ s, re_match Regex.eps s = true) :=
  ⟨rfl, c9_every_line_compiled [['a'], []] _ rfl⟩

/-- C10: the in-memory already-processed list is a fixed parameter of the
loop, loaded once before the loop and never updated during the run (an
acceptance appends only to the persistent file, which the duplicate check
never consults).  Consequently the submission log of a fully successful run
is determined entry by entry from the initial list — and when the same
fresh, rule-matching identifier occurs twice in one feed snapshot, the
second occurrence also passes the duplicate check and is submitted again
(each occurrence being submitted twice, per the C2 slip). -/
theorem c10_inmemory_ledger_frozen (env : Env) (added : List (List Char))
    (cf : List Regex) (s : LoopState) (entries : List Item)
    (hok : ∀ l, env.submitOk l = true) :
    (runLoop env added cf s entries).1.submitted =
      s.submitted ++ acceptedLinks env added cf entries ∧
    ∀ e : Item, classify env added cf e = .Accepted →
      (runLoop env added cf s [e, e]).1.submitted =
        s.submitted ++ [e.link, e.link, e.link, e.link] := by
  constructor
  · rw [runLoop_ok env added cf entries s hok]
    exact classRun_submitted env added cf entries s
  · intro e hacc
    rw [runLoop_ok env added cf [e, e] s hok, classRun_submitted]
    simp [acceptedLinks, hacc]

/-- C10 witness: the accepted entry appearing twice in the same snapshot is
submitted at both occurrences. -/
theorem c10_witness :
    (∀ l, envOneMatch.submitOk l = true) ∧
    ((runLoop envOneMatch [] cfA state0 [itemA]).1.submitted =
        state0.submitted ++ acceptedLinks envOneMatch [] cfA [itemA] ∧
     ∀ e : Item, classify envOneMatch [] cfA e = .Accepted →
       (runLoop envOneMatch [] cfA state0 [e, e]).1.submitted =
         state0.submitted ++ [e.link, e.link, e.link, e.link]) :=
  ⟨fun _ => rfl,
   c10_inmemory_ledger_frozen envOneMatch [] cfA state0 [itemA] (fun _ => rfl)⟩

end Transs
